import Mathlib

set_option maxHeartbeats 1000000

/-!
Verification of the process-lifecycle monitor of `wails-app/internal/app/logging.go`
(repository veda-anchor).  The monitor's state, its classification function, the
per-tick diff passes, startup reconciliation and the reset channel are embedded
as executable Lean definitions, translated clause by clause from the Go source.
Go maps are modelled as duplicate-free lists (set of names, association list
pid → name); map iteration with in-loop deletion is modelled by processing the
entries in list order while splitting the map into the already-kept entries and
the not-yet-visited entries.
-/

/-- Outcome of classifying one observed process.  Mirrors the Go type `logStatus`
with its constants `logStatusLog`, `logStatusExclude`, `logStatusRetry`. -/
inductive LogStatus where
  | log
  | exclude
  | retry
deriving DecidableEq, Repr

/-- Model of a gopsutil process handle as the monitor reads it.  Each metadata
lookup in Go returns a value and an error; a failed lookup is modelled as `none`.
`parentName` folds the two-step lookup `p.Parent()` then `parent.Name()`:
`none` when the parent is nil or its name lookup fails. -/
structure Proc where
  pid : Int
  name : Option String
  exe : Option String
  parentName : Option String
deriving DecidableEq, Repr

/-- The external classification predicates `app_filter.ShouldExclude` and
`app_filter.ShouldTrack`: capabilities taking the executable path and the
process handle, pure booleans from the monitor's point of view. -/
structure AppFilter where
  ShouldExclude : String → Proc → Bool
  ShouldTrack : String → Proc → Bool

/-- One parameterized statement handed to `write.EnqueueWrite`.
`Stmt.endUpdate t pid` models the statement
"UPDATE app_events SET end_time = ? WHERE pid = ? AND end_time IS NULL" with
arguments `(t, pid)`; `Stmt.insertEvent` models
"INSERT INTO app_events (process_name, pid, parent_process_name, exe_path, start_time)
VALUES (?, ?, ?, ?, ?)" with its five arguments.  The timestamp argument models
the `time.Now().Unix()` value at emission. -/
inductive Stmt where
  | endUpdate (endTime : Int) (pid : Int)
  | insertEvent (processName : String) (pid : Int) (parentProcessName : String)
      (exePath : String) (startTime : Int)
deriving DecidableEq, Repr

/-- The monitor's in-memory state: the package-level `loggedApps` map (the set of
lowercased names with value true, modelled as a duplicate-free list) and the
`runningProcs` map (pid → lowercased name, modelled as an association list). -/
structure LoggerState where
  loggedApps : List String
  runningProcs : List (Int × String)
deriving DecidableEq, Repr

/-- Model of Go `strings.ToLower` restricted to the ASCII range: lowercases
every character of the string. -/
def strToLower (s : String) : String :=
  ⟨s.data.map Char.toLower⟩

/-- Go map lookup `runningProcs[pid]`. -/
def lookupPid (l : List (Int × String)) (pid : Int) : Option String :=
  match l with
  | [] => none
  | e :: rest => if e.1 = pid then some e.2 else lookupPid rest pid

/-- Go map insert `loggedApps[n] = true`: a set insert, no duplicate keys. -/
def insertName (l : List String) (n : String) : List String :=
  if n ∈ l then l else n :: l

/-- Go map assignment `runningProcs[pid] = v`: overwrites any existing entry
for the key. -/
def insertRunning (l : List (Int × String)) (pid : Int) (v : String) :
    List (Int × String) :=
  l.filter (fun e => decide (e.1 ≠ pid)) ++ [(pid, v)]

/-- Go `evaluateProcessForLogging` (logging.go lines 162-197): the classification
state machine.  Checks, first match wins: name error or empty name → retry;
exe error → retry; `ShouldExclude` → exclude; lowercased name already in
`loggedApps` → exclude; not `ShouldTrack` → retry; otherwise log. -/
def evaluateProcessForLogging (f : AppFilter) (loggedApps : List String)
    (p : Proc) : LogStatus :=
  match p.name with
  | none => LogStatus.retry
  | some name =>
    if name = "" then LogStatus.retry
    else
      let nameLower := strToLower name
      match p.exe with
      | none => LogStatus.retry
      | some exePath =>
        if f.ShouldExclude exePath p then LogStatus.exclude
        else if nameLower ∈ loggedApps then LogStatus.exclude
        else if !(f.ShouldTrack exePath p) then LogStatus.retry
        else LogStatus.log

/-- Loop body of Go `logEndedProcesses` (logging.go lines 68-91).  `kept` holds
the map entries already visited and not deleted, `pending` the entries not yet
visited; the live map at any point is `kept ++ pending`.  For a pid absent from
`currentProcs`: emit the end update, drop the entry, and delete the name from
`loggedApps` unless some other entry of the live map still carries the name. -/
def logEndedLoop (now : Int) (currentProcs : List Int)
    (kept pending : List (Int × String)) (logged : List String) :
    LoggerState × List Stmt :=
  match pending with
  | [] => ({ loggedApps := logged, runningProcs := kept }, [])
  | e :: rest =>
    if e.1 ∈ currentProcs then
      logEndedLoop now currentProcs (kept ++ [e]) rest logged
    else
      let isOtherSameNameRunning := (kept ++ rest).any (fun o => decide (o.2 = e.2))
      let logged1 :=
        if isOtherSameNameRunning then logged
        else logged.filter (fun m => decide (m ≠ e.2))
      let r := logEndedLoop now currentProcs kept rest logged1
      (r.1, Stmt.endUpdate now e.1 :: r.2)

/-- Go `logEndedProcesses`: termination detection over the whole running map. -/
def logEndedProcesses (now : Int) (s : LoggerState) (currentProcs : List Int) :
    LoggerState × List Stmt :=
  logEndedLoop now currentProcs [] s.runningProcs s.loggedApps

/-- Body of the loop in Go `logNewProcesses` (logging.go lines 101-134) for one
snapshot process: skip pids already in `runningProcs`; otherwise classify; on
log, enqueue the insert (name, pid, best-effort parent name, exe path, now) and
mark the lowercased name in `loggedApps`; on any non-retry status, record the
pid in `runningProcs` provided the name lookup succeeds and is non-empty. -/
def newProcStep (f : AppFilter) (now : Int) (s : LoggerState) (p : Proc) :
    LoggerState × List Stmt :=
  if (lookupPid s.runningProcs p.pid).isSome then (s, [])
  else
    let status := evaluateProcessForLogging f s.loggedApps p
    let s1 : LoggerState :=
      if status = LogStatus.log then
        { s with loggedApps := insertName s.loggedApps (strToLower (p.name.getD "")) }
      else s
    let out : List Stmt :=
      if status = LogStatus.log then
        [Stmt.insertEvent (p.name.getD "") p.pid (p.parentName.getD "")
          (p.exe.getD "") now]
      else []
    let s2 : LoggerState :=
      if status ≠ LogStatus.retry then
        match p.name with
        | some name =>
          if name ≠ "" then
            { s1 with runningProcs := insertRunning s1.runningProcs p.pid (strToLower name) }
          else s1
        | none => s1
      else s1
    (s2, out)

/-- Go `logNewProcesses`: classify every snapshot process in order. -/
def logNewProcesses (f : AppFilter) (now : Int) (s : LoggerState)
    (procs : List Proc) : LoggerState × List Stmt :=
  match procs with
  | [] => (s, [])
  | p :: rest =>
    let r1 := newProcStep f now s p
    let r2 := logNewProcesses f now r1.1 rest
    (r2.1, r1.2 ++ r2.2)

/-- Row loop of Go `initializeRunningProcs` (logging.go lines 143-159).  A row is
`none` when `rows.Scan` fails — the Go code guards the body with the scan
succeeding, so such a row is skipped and the loop continues.  For a scanned row:
if the pid is alive, seed `runningProcs` and mark the lowercased name in
`loggedApps`; otherwise enqueue the stale-record end update. -/
def initLoop (now : Int) (alive : Int → Bool) (s : LoggerState)
    (rows : List (Option (Int × String))) : LoggerState × List Stmt :=
  match rows with
  | [] => (s, [])
  | none :: rest => initLoop now alive s rest
  | some r :: rest =>
    if alive r.1 then
      initLoop now alive
        { loggedApps := insertName s.loggedApps (strToLower r.2),
          runningProcs := insertRunning s.runningProcs r.1 (strToLower r.2) } rest
    else
      let t := initLoop now alive s rest
      (t.1, Stmt.endUpdate now r.1 :: t.2)

/-- Go `initializeRunningProcs` (logging.go lines 136-160): startup
reconciliation.  `queryResult` is `none` when the open-events query itself
fails, in which case the function returns immediately with nothing done. -/
def initializeRunningProcs (now : Int) (alive : Int → Bool) (s : LoggerState)
    (queryResult : Option (List (Option (Int × String)))) :
    LoggerState × List Stmt :=
  match queryResult with
  | none => (s, [])
  | some rows => initLoop now alive s rows

/-- One ticker tick of the poller loop (logging.go lines 42-55): build the
`currentProcs` pid set from the snapshot, run termination detection, then run
new-process classification on the resulting state. -/
def tick (f : AppFilter) (now : Int) (s : LoggerState) (procs : List Proc) :
    LoggerState × List Stmt :=
  let currentProcs := procs.map Proc.pid
  let r1 := logEndedProcesses now s currentProcs
  let r2 := logNewProcesses f now r1.1 procs
  (r2.1, r1.2 ++ r2.2)

/-- One wake-up of the poller's select loop: either the ticker fires with a
snapshot (`none` models a `process.Processes()` error), or the reset signal is
consumed. -/
inductive LoopEvent where
  | tick (snapshot : Option (List Proc)) (now : Int)
  | reset
deriving Repr

/-- One iteration of the select loop in Go `StartProcessEventLogger` (lines
40-64): a failed snapshot logs and skips the tick; a good snapshot runs the two
diff passes; a reset clears `loggedApps` and replaces `runningProcs` with an
empty map. -/
def loopStep (f : AppFilter) (s : LoggerState) (e : LoopEvent) :
    LoggerState × List Stmt :=
  match e with
  | LoopEvent.tick none _ => (s, [])
  | LoopEvent.tick (some procs) now => tick f now s procs
  | LoopEvent.reset => ({ loggedApps := [], runningProcs := [] }, [])

/-- The poller loop run over a finite trace of wake-ups. -/
def runLoop (f : AppFilter) (s : LoggerState) (events : List LoopEvent) :
    LoggerState × List Stmt :=
  match events with
  | [] => (s, [])
  | e :: rest =>
    let r1 := loopStep f s e
    let r2 := runLoop f r1.1 rest
    (r2.1, r1.2 ++ r2.2)

/-- Go `StartProcessEventLogger`: start from empty maps, run startup
reconciliation once, then the select loop. -/
def StartProcessEventLogger (f : AppFilter) (now0 : Int) (alive : Int → Bool)
    (queryResult : Option (List (Option (Int × String))))
    (events : List LoopEvent) : LoggerState × List Stmt :=
  let i := initializeRunningProcs now0 alive
    { loggedApps := [], runningProcs := [] } queryResult
  let r := runLoop f i.1 events
  (r.1, i.2 ++ r.2)

/-- State of the capacity-one reset channel `resetLoggerCh` together with the
senders currently blocked inside `ResetLoggedApps`: `buffered` is the number of
signals sitting in the channel buffer (at most one), `blocked` the number of
callers whose send has not yet completed. -/
structure ResetCh where
  buffered : Nat
  blocked : Nat
deriving DecidableEq, Repr

/-- Go `ResetLoggedApps` (logging.go lines 27-29): a plain send on the
capacity-one channel.  If the buffer has room the signal is deposited;
otherwise the sender blocks (it is NOT a drop: the send completes later,
when a receive frees the slot). -/
def ResetLoggedApps (c : ResetCh) : ResetCh :=
  if c.buffered < 1 then { c with buffered := c.buffered + 1 }
  else { c with blocked := c.blocked + 1 }

/-- The poller receiving from `resetLoggerCh`: `none` when the channel is empty
(the receive would block).  After a successful receive a blocked sender, if
any, completes its send and refills the slot. -/
def resetChReceive (c : ResetCh) : Option ResetCh :=
  if c.buffered = 0 then none
  else if c.blocked = 0 then some { buffered := c.buffered - 1, blocked := 0 }
  else some { buffered := c.buffered, blocked := c.blocked - 1 }

/-- Total number of reset-branch executions the channel state still implies:
each pending or blocked signal will be received exactly once, and each receive
runs the clearing branch of the select loop once. -/
def drainClears (c : ResetCh) : Nat := c.buffered + c.blocked

/-- The classification decision order as the specification words it, clause by
clause: (1) name unobtainable or empty → retry; (2) executable path
unobtainable → retry; (3) exclusion predicate true → exclude; (4) lowercased
name already in the dedup cache → exclude; (5) trackability predicate false →
retry; (6) otherwise log.  Written from the spec to be compared with
`evaluateProcessForLogging`. -/
def classifySpecOrder (f : AppFilter) (logged : List String) (p : Proc) :
    LogStatus :=
  if p.name = none ∨ p.name = some "" then LogStatus.retry
  else if p.exe = none then LogStatus.retry
  else if f.ShouldExclude (p.exe.getD "") p = true then LogStatus.exclude
  else if strToLower (p.name.getD "") ∈ logged then LogStatus.exclude
  else if f.ShouldTrack (p.exe.getD "") p = false then LogStatus.retry
  else LogStatus.log

/-- Trivial filter used in concrete witnesses: nothing excluded, everything
trackable. -/
def passAllFilter : AppFilter :=
  { ShouldExclude := fun _ _ => false, ShouldTrack := fun _ _ => true }

/-- Filter used in concrete counterexamples: excludes exactly the executable
path "/sys/daemon", tracks everything. -/
def sysFilter : AppFilter :=
  { ShouldExclude := fun x _ => decide (x = "/sys/daemon"),
    ShouldTrack := fun _ _ => true }

/-! ### Basic lemmas about the map models -/

lemma lookupPid_eq_none_iff (l : List (Int × String)) (pid : Int) :
    lookupPid l pid = none ↔ ∀ e ∈ l, e.1 ≠ pid := by
  induction l with
  | nil => simp [lookupPid]
  | cons e rest ih =>
    by_cases h : e.1 = pid
    · simp only [lookupPid, if_pos h, List.forall_mem_cons]
      constructor
      · intro hc; exact (Option.some_ne_none _ hc).elim
      · intro hc; exact (hc.1 h).elim
    · simp only [lookupPid, if_neg h, List.forall_mem_cons, ih]
      constructor
      · intro hall; exact ⟨h, hall⟩
      · intro hc; exact hc.2

lemma lookupPid_append_of_none (a b : List (Int × String)) (pid : Int)
    (h : lookupPid a pid = none) :
    lookupPid (a ++ b) pid = lookupPid b pid := by
  induction a with
  | nil => simp
  | cons e rest ih =>
    by_cases he : e.1 = pid
    · simp [lookupPid, he] at h
    · simp only [lookupPid, if_neg he] at h ⊢
      exact ih h

lemma lookupPid_filter_ne (l : List (Int × String)) (pid q : Int) (h : q ≠ pid) :
    lookupPid (l.filter (fun e => decide (e.1 ≠ pid))) q = lookupPid l q := by
  induction l with
  | nil => simp
  | cons e rest ih =>
    simp only [List.filter_cons]
    by_cases he : e.1 = pid
    · rw [if_neg (by simp [he])]
      rw [ih]
      simp only [lookupPid]
      rw [if_neg (by rw [he]; exact fun hc => h hc.symm)]
    · rw [if_pos (by simp [he])]
      simp only [lookupPid]
      by_cases hq : e.1 = q
      · rw [if_pos hq, if_pos hq]
      · rw [if_neg hq, if_neg hq, ih]

lemma lookupPid_insertRunning_self (l : List (Int × String)) (pid : Int)
    (v : String) : lookupPid (insertRunning l pid v) pid = some v := by
  unfold insertRunning
  have hnone : lookupPid (l.filter (fun e => decide (e.1 ≠ pid))) pid = none := by
    rw [lookupPid_eq_none_iff]
    intro e he
    have := List.of_mem_filter he
    simpa using this
  rw [lookupPid_append_of_none _ _ _ hnone]
  simp [lookupPid]

lemma lookupPid_insertRunning_ne (l : List (Int × String)) (pid q : Int)
    (v : String) (h : q ≠ pid) :
    lookupPid (insertRunning l pid v) q = lookupPid l q := by
  unfold insertRunning
  rw [← lookupPid_filter_ne l pid q h]
  generalize (l.filter (fun e => decide (e.1 ≠ pid))) = m
  induction m with
  | nil =>
    show lookupPid [(pid, v)] q = none
    simp only [lookupPid]
    rw [if_neg (fun hc : pid = q => h hc.symm)]
  | cons e rest ih =>
    simp only [List.cons_append, lookupPid]
    by_cases he : e.1 = q
    · simp [he]
    · simp [he, ih]

lemma mem_insertName (l : List String) (n m : String) :
    m ∈ insertName l n ↔ m = n ∨ m ∈ l := by
  unfold insertName
  by_cases h : n ∈ l
  · simp only [if_pos h]
    constructor
    · exact Or.inr
    · rintro (rfl | hm)
      · exact h
      · exact hm
  · simp [if_neg h]

/-! ### Lemmas about the classification function -/

lemma evaluate_eq_retry_of_name_none (f : AppFilter) (logged : List String)
    (p : Proc) (h : p.name = none) :
    evaluateProcessForLogging f logged p = LogStatus.retry := by
  simp [evaluateProcessForLogging, h]

lemma evaluate_ne_retry_shape (f : AppFilter) (logged : List String) (p : Proc)
    (h : evaluateProcessForLogging f logged p ≠ LogStatus.retry) :
    ∃ nm x, p.name = some nm ∧ nm ≠ "" ∧ p.exe = some x := by
  rcases hn : p.name with _ | nm
  · exact absurd (evaluate_eq_retry_of_name_none f logged p hn) h
  · by_cases hne : nm = ""
    · exact absurd (by simp [evaluateProcessForLogging, hn, hne]) h
    · rcases hx : p.exe with _ | x
      · exact absurd (by simp [evaluateProcessForLogging, hn, hne, hx]) h
      · exact ⟨nm, x, rfl, hne, rfl⟩

lemma evaluate_eq_log_intro (f : AppFilter) (logged : List String) (p : Proc)
    (nm x : String) (hn : p.name = some nm) (hne : nm ≠ "")
    (hx : p.exe = some x) (hexcl : f.ShouldExclude x p = false)
    (hmem : strToLower nm ∉ logged) (ht : f.ShouldTrack x p = true) :
    evaluateProcessForLogging f logged p = LogStatus.log := by
  simp [evaluateProcessForLogging, hn, hne, hx, hexcl, hmem, ht]

lemma evaluate_eq_exclude_of_mem (f : AppFilter) (logged : List String)
    (p : Proc) (nm x : String) (hn : p.name = some nm) (hne : nm ≠ "")
    (hx : p.exe = some x) (hmem : strToLower nm ∈ logged) :
    evaluateProcessForLogging f logged p = LogStatus.exclude := by
  by_cases hexcl : f.ShouldExclude x p
  · simp [evaluateProcessForLogging, hn, hne, hx, hexcl]
  · simp [evaluateProcessForLogging, hn, hne, hx, hexcl, hmem]

/-- Claim C1: for every observed process, the classification outcome follows the
spec's decision order with first match winning: (1) name unobtainable or empty
gives retry; (2) executable path unobtainable gives retry; (3) ShouldExclude
true gives exclude; (4) lowercased name already in the dedup cache gives
exclude; (5) ShouldTrack false gives retry; (6) otherwise log.  The source
function `evaluateProcessForLogging` coincides with `classifySpecOrder`, the
decision list written from the spec, on every filter, cache and process. -/
theorem evaluateProcessForLogging_matches_spec_order (f : AppFilter)
    (logged : List String) (p : Proc) :
    evaluateProcessForLogging f logged p = classifySpecOrder f logged p := by
  rcases hn : p.name with _ | nm
  · simp [evaluateProcessForLogging, classifySpecOrder, hn]
  · by_cases hne : nm = ""
    · simp [evaluateProcessForLogging, classifySpecOrder, hn, hne]
    · rcases hx : p.exe with _ | x
      · simp [evaluateProcessForLogging, classifySpecOrder, hn, hne, hx]
      · by_cases hexcl : f.ShouldExclude x p
        · simp [evaluateProcessForLogging, classifySpecOrder, hn, hne, hx, hexcl]
        · by_cases hmem : strToLower nm ∈ logged
          · simp [evaluateProcessForLogging, classifySpecOrder, hn, hne, hx,
              hexcl, hmem]
          · by_cases ht : f.ShouldTrack x p
            · simp [evaluateProcessForLogging, classifySpecOrder, hn, hne, hx,
                hexcl, hmem, ht]
            · simp [evaluateProcessForLogging, classifySpecOrder, hn, hne, hx,
                hexcl, hmem, ht]

/-! ### Lemmas about termination detection -/

lemma logEndedLoop_stmts (now : Int) (cur : List Int) :
    ∀ (pending kept : List (Int × String)) (logged : List String),
    (logEndedLoop now cur kept pending logged).2 =
      (pending.filter (fun o => !decide (o.1 ∈ cur))).map
        (fun o => Stmt.endUpdate now o.1) := by
  intro pending
  induction pending with
  | nil => intro kept logged; simp [logEndedLoop]
  | cons e rest ih =>
    intro kept logged
    by_cases h : e.1 ∈ cur
    · simp [logEndedLoop, h, ih]
    · simp [logEndedLoop, h, ih]

lemma logEndedLoop_running (now : Int) (cur : List Int) :
    ∀ (pending kept : List (Int × String)) (logged : List String),
    (logEndedLoop now cur kept pending logged).1.runningProcs =
      kept ++ pending.filter (fun o => decide (o.1 ∈ cur)) := by
  intro pending
  induction pending with
  | nil => intro kept logged; simp [logEndedLoop]
  | cons e rest ih =>
    intro kept logged
    by_cases h : e.1 ∈ cur
    · simp [logEndedLoop, h, ih]
    · simp [logEndedLoop, h, ih]

lemma logEndedLoop_logged_mem (now : Int) (cur : List Int) (n : String) :
    ∀ (pending kept : List (Int × String)) (logged : List String),
    (n ∈ (logEndedLoop now cur kept pending logged).1.loggedApps ↔
      n ∈ logged ∧ ((∀ o ∈ pending, o.1 ∉ cur → o.2 ≠ n) ∨
        (∃ o ∈ pending, o.1 ∈ cur ∧ o.2 = n) ∨ (∃ o ∈ kept, o.2 = n))) := by
  intro pending
  induction pending with
  | nil =>
    intro kept logged
    simp [logEndedLoop]
  | cons e rest ih =>
    intro kept logged
    by_cases h : e.1 ∈ cur
    · have hstep : logEndedLoop now cur kept (e :: rest) logged =
          logEndedLoop now cur (kept ++ [e]) rest logged := by
        simp [logEndedLoop, h]
      rw [hstep, ih]
      constructor
      · rintro ⟨hl, hrest⟩
        refine ⟨hl, ?_⟩
        rcases hrest with hA | hB | hC
        · left
          intro x hx hdead
          rcases List.mem_cons.1 hx with rfl | hx'
          · exact absurd h hdead
          · exact hA x hx' hdead
        · right; left
          obtain ⟨x, hx, hxc, hxn⟩ := hB
          exact ⟨x, List.mem_cons_of_mem _ hx, hxc, hxn⟩
        · obtain ⟨x, hx, hxn⟩ := hC
          rcases List.mem_append.1 hx with hx' | hx'
          · right; right; exact ⟨x, hx', hxn⟩
          · have hxe : x = e := by simpa using hx'
            subst hxe
            right; left
            exact ⟨x, List.mem_cons_self _ _, h, hxn⟩
      · rintro ⟨hl, hrest⟩
        refine ⟨hl, ?_⟩
        rcases hrest with hA | hB | hC
        · left
          intro x hx hdead
          exact hA x (List.mem_cons_of_mem _ hx) hdead
        · obtain ⟨x, hx, hxc, hxn⟩ := hB
          rcases List.mem_cons.1 hx with rfl | hx'
          · right; right; exact ⟨x, by simp, hxn⟩
          · right; left; exact ⟨x, hx', hxc, hxn⟩
        · right; right
          obtain ⟨x, hx, hxn⟩ := hC
          exact ⟨x, List.mem_append_left _ hx, hxn⟩
    · by_cases hb : (kept ++ rest).any (fun o => decide (o.2 = e.2)) = true
      · have hstep : (logEndedLoop now cur kept (e :: rest) logged).1 =
            (logEndedLoop now cur kept rest logged).1 := by
          simp [logEndedLoop, h, hb]
        rw [hstep, ih]
        obtain ⟨y, hy, hyn⟩ : ∃ y ∈ kept ++ rest, y.2 = e.2 := by
          rw [List.any_eq_true] at hb
          obtain ⟨y, hy, hyd⟩ := hb
          exact ⟨y, hy, of_decide_eq_true hyd⟩
        constructor
        · rintro ⟨hl, hrest⟩
          refine ⟨hl, ?_⟩
          rcases hrest with hA | hB | hC
          · by_cases hn' : e.2 = n
            · rcases List.mem_append.1 hy with hyk | hyr
              · right; right; exact ⟨y, hyk, hyn.trans hn'⟩
              · by_cases hyc : y.1 ∈ cur
                · right; left
                  exact ⟨y, List.mem_cons_of_mem _ hyr, hyc, hyn.trans hn'⟩
                · exact absurd (hyn.trans hn') (hA y hyr hyc)
            · left
              intro x hx hdead
              rcases List.mem_cons.1 hx with rfl | hx'
              · exact hn'
              · exact hA x hx' hdead
          · right; left
            obtain ⟨x, hx, hxc, hxn⟩ := hB
            exact ⟨x, List.mem_cons_of_mem _ hx, hxc, hxn⟩
          · right; right; exact hC
        · rintro ⟨hl, hrest⟩
          refine ⟨hl, ?_⟩
          rcases hrest with hA | hB | hC
          · left
            intro x hx hdead
            exact hA x (List.mem_cons_of_mem _ hx) hdead
          · obtain ⟨x, hx, hxc, hxn⟩ := hB
            rcases List.mem_cons.1 hx with rfl | hx'
            · exact absurd hxc h
            · right; left; exact ⟨x, hx', hxc, hxn⟩
          · right; right; exact hC
      · have hstep : (logEndedLoop now cur kept (e :: rest) logged).1 =
            (logEndedLoop now cur kept rest
              (logged.filter (fun m => decide (m ≠ e.2)))).1 := by
          simp [logEndedLoop, h, hb]
        rw [hstep, ih]
        have hall : ∀ y ∈ kept ++ rest, y.2 ≠ e.2 := by
          intro y hy hc
          apply hb
          simp only [List.any_eq_true, decide_eq_true_eq]
          exact ⟨y, hy, hc⟩
        have hfmem : n ∈ logged.filter (fun m => decide (m ≠ e.2)) ↔
            n ∈ logged ∧ n ≠ e.2 := by
          simp [List.mem_filter]
        rw [hfmem]
        constructor
        · rintro ⟨⟨hl, hne⟩, hrest⟩
          refine ⟨hl, ?_⟩
          rcases hrest with hA | hB | hC
          · left
            intro x hx hdead
            rcases List.mem_cons.1 hx with rfl | hx'
            · exact fun hc => hne hc.symm
            · exact hA x hx' hdead
          · right; left
            obtain ⟨x, hx, hxc, hxn⟩ := hB
            exact ⟨x, List.mem_cons_of_mem _ hx, hxc, hxn⟩
          · right; right; exact hC
        · rintro ⟨hl, hrest⟩
          rcases hrest with hA | hB | hC
          · have hne : ¬ n = e.2 := fun hc =>
              (hA e (List.mem_cons_self _ _) h) hc.symm
            refine ⟨⟨hl, hne⟩, ?_⟩
            left
            intro x hx hdead
            exact hA x (List.mem_cons_of_mem _ hx) hdead
          · obtain ⟨x, hx, hxc, hxn⟩ := hB
            rcases List.mem_cons.1 hx with rfl | hx'
            · exact absurd hxc h
            · have hne : ¬ n = e.2 := fun hc =>
                hall x (List.mem_append_right _ hx') (hxn.trans hc)
              exact ⟨⟨hl, hne⟩, Or.inr (Or.inl ⟨x, hx', hxc, hxn⟩)⟩
          · obtain ⟨x, hx, hxn⟩ := hC
            have hne : ¬ n = e.2 := fun hc =>
              hall x (List.mem_append_left _ hx) (hxn.trans hc)
            exact ⟨⟨hl, hne⟩, Or.inr (Or.inr ⟨x, hx, hxn⟩)⟩

lemma count_endUpdate_map_zero (now : Int) (pid : Int) (pids : List Int)
    (hmem : pid ∉ pids) :
    ((pids.map (fun q => Stmt.endUpdate now q)).count (Stmt.endUpdate now pid)) = 0 := by
  apply List.count_eq_zero_of_not_mem
  intro hc
  obtain ⟨q, hq, hqe⟩ := List.mem_map.1 hc
  have hq2 : q = pid := by
    injection hqe with h1 h2
  exact hmem (hq2 ▸ hq)

lemma count_endUpdate_map_one (now : Int) (pid : Int) :
    ∀ pids : List Int, pids.Nodup → pid ∈ pids →
    ((pids.map (fun q => Stmt.endUpdate now q)).count (Stmt.endUpdate now pid)) = 1 := by
  intro pids
  induction pids with
  | nil => intro _ h; cases h
  | cons q rest ih =>
    intro hnd hmem
    simp only [List.map_cons]
    rcases List.mem_cons.1 hmem with rfl | hmem'
    · rw [List.count_cons_self]
      rw [count_endUpdate_map_zero now pid rest (List.nodup_cons.1 hnd).1]
    · have hne : Stmt.endUpdate now pid ≠ Stmt.endUpdate now q := by
        intro hc
        injection hc with h1 h2
        exact (List.nodup_cons.1 hnd).1 (h2 ▸ hmem')
      rw [List.count_cons_of_ne hne]
      exact ih (List.nodup_cons.1 hnd).2 hmem'

/-- Claim C4: on a tick, for every pid in the running set that is absent from
the fresh snapshot, `logEndedProcesses` (i) emits exactly one end-update
statement for that pid, (ii) removes the pid from the running set, and
(iii) removes the pid's lowercased name from the dedup cache exactly when no
surviving (still-alive) running entry shares the name; consequently (iv) once
no running instance of the name remains alive, a subsequent process with that
lowercased name, resolvable metadata, not excluded and trackable is classified
`log` again against the resulting cache. -/
theorem logEndedProcesses_termination (now : Int) (s : LoggerState)
    (current : List Int) (pid : Int) (n : String)
    (hmem : (pid, n) ∈ s.runningProcs)
    (hdead : pid ∉ current)
    (hnodup : (s.runningProcs.map Prod.fst).Nodup) :
    (logEndedProcesses now s current).2.count (Stmt.endUpdate now pid) = 1 ∧
    lookupPid (logEndedProcesses now s current).1.runningProcs pid = none ∧
    (n ∉ (logEndedProcesses now s current).1.loggedApps ↔
      (n ∉ s.loggedApps ∨ ∀ o ∈ s.runningProcs, o.2 = n → o.1 ∉ current)) ∧
    ((∀ o ∈ s.runningProcs, o.2 = n → o.1 ∉ current) →
      ∀ (f : AppFilter) (p : Proc) (nm x : String),
        p.name = some nm → nm ≠ "" → strToLower nm = n → p.exe = some x →
        f.ShouldExclude x p = false → f.ShouldTrack x p = true →
        evaluateProcessForLogging f (logEndedProcesses now s current).1.loggedApps p =
          LogStatus.log) := by
  have hchar := logEndedLoop_logged_mem now current n s.runningProcs [] s.loggedApps
  have hAfalse : ¬ (∀ o ∈ s.runningProcs, o.1 ∉ current → o.2 ≠ n) := by
    intro hA
    exact (hA (pid, n) hmem hdead) rfl
  refine ⟨?_, ?_, ?_, ?_⟩
  · -- exactly one end statement
    have hstmts := logEndedLoop_stmts now current s.runningProcs [] s.loggedApps
    show (logEndedLoop now current [] s.runningProcs s.loggedApps).2.count
      (Stmt.endUpdate now pid) = 1
    rw [hstmts]
    have hmap : (s.runningProcs.filter (fun o => !decide (o.1 ∈ current))).map
        (fun o => Stmt.endUpdate now o.1) =
        ((s.runningProcs.filter (fun o => !decide (o.1 ∈ current))).map Prod.fst).map
          (fun q => Stmt.endUpdate now q) := by
      rw [List.map_map]
      rfl
    rw [hmap]
    apply count_endUpdate_map_one
    · exact List.Nodup.sublist ((List.filter_sublist _).map Prod.fst) hnodup
    · apply List.mem_map.2
      refine ⟨(pid, n), List.mem_filter.2 ⟨hmem, ?_⟩, rfl⟩
      simp [hdead]
  · -- pid removed from running set
    have hrun := logEndedLoop_running now current s.runningProcs [] s.loggedApps
    show lookupPid (logEndedLoop now current [] s.runningProcs s.loggedApps).1.runningProcs
      pid = none
    rw [hrun, lookupPid_eq_none_iff]
    intro o ho hoc
    rcases List.mem_append.1 ho with ho' | ho'
    · exact absurd ho' (List.not_mem_nil o)
    · have := List.mem_filter.1 ho'
      have halive : o.1 ∈ current := of_decide_eq_true this.2
      exact hdead (hoc ▸ halive)
  · -- dedup cache removal characterization
    constructor
    · intro hnot
      by_cases hl : n ∈ s.loggedApps
      · right
        intro o ho hon hoc
        exact hnot (hchar.2 ⟨hl, Or.inr (Or.inl ⟨o, ho, hoc, hon⟩)⟩)
      · left; exact hl
    · intro hdisj hcon
      have hc := hchar.1 hcon
      rcases hdisj with hnl | hnoalive
      · exact hnl hc.1
      · rcases hc.2 with hA | hB | hF
        · exact hAfalse hA
        · obtain ⟨o, ho, hoc, hon⟩ := hB
          exact (hnoalive o ho hon) hoc
        · obtain ⟨o, ho, _⟩ := hF
          exact absurd ho (List.not_mem_nil o)
  · -- relog after full exit
    intro hnoalive f p nm x hn hne hlow hx hexcl ht
    have hnfinal : n ∉ (logEndedProcesses now s current).1.loggedApps := by
      intro hcon
      have hc := hchar.1 hcon
      rcases hc.2 with hA | hB | hF
      · exact hAfalse hA
      · obtain ⟨o, ho, hoc, hon⟩ := hB
        exact (hnoalive o ho hon) hoc
      · obtain ⟨o, ho, _⟩ := hF
        exact absurd ho (List.not_mem_nil o)
    exact evaluate_eq_log_intro f _ p nm x hn hne hx hexcl (hlow ▸ hnfinal) ht

/-- Witness for C4 at a concrete state: pid 1 named "a" is the only running
instance, absent from an empty snapshot. -/
theorem logEndedProcesses_termination_witness :
    (logEndedProcesses 0 ⟨["a"], [(1, "a")]⟩ []).2.count (Stmt.endUpdate 0 1) = 1 ∧
    lookupPid (logEndedProcesses 0 ⟨["a"], [(1, "a")]⟩ []).1.runningProcs 1 = none ∧
    "a" ∉ (logEndedProcesses 0 ⟨["a"], [(1, "a")]⟩ []).1.loggedApps ∧
    evaluateProcessForLogging passAllFilter
      (logEndedProcesses 0 ⟨["a"], [(1, "a")]⟩ []).1.loggedApps
      ⟨2, some "a", some "/x", none⟩ = LogStatus.log := by
  have h := logEndedProcesses_termination 0 ⟨["a"], [(1, "a")]⟩ [] 1 "a"
    (by decide) (by decide) (by decide)
  refine ⟨h.1, h.2.1, ?_, ?_⟩
  · exact (h.2.2.1).mpr (Or.inr (by decide))
  · exact h.2.2.2 (by decide) passAllFilter ⟨2, some "a", some "/x", none⟩ "a" "/x"
      rfl (by decide) (by decide) rfl rfl rfl

/-! ### Lemmas about new-process classification -/

lemma newProcStep_of_lookup_some (f : AppFilter) (now : Int) (s : LoggerState)
    (p : Proc) (h : (lookupPid s.runningProcs p.pid).isSome = true) :
    newProcStep f now s p = (s, []) := by
  simp [newProcStep, h]

lemma newProcStep_of_retry (f : AppFilter) (now : Int) (s : LoggerState)
    (p : Proc) (h : evaluateProcessForLogging f s.loggedApps p = LogStatus.retry) :
    newProcStep f now s p = (s, []) := by
  rcases hl : lookupPid s.runningProcs p.pid with _ | v
  · simp [newProcStep, hl, h]
  · simp [newProcStep, hl]

lemma newProcStep_of_exclude (f : AppFilter) (now : Int) (s : LoggerState)
    (p : Proc) (hl : lookupPid s.runningProcs p.pid = none)
    (h : evaluateProcessForLogging f s.loggedApps p = LogStatus.exclude) :
    newProcStep f now s p =
      ({ s with runningProcs := insertRunning s.runningProcs p.pid (strToLower (p.name.getD "")) }, []) := by
  obtain ⟨nm, x, hn, hne, hx⟩ := evaluate_ne_retry_shape f s.loggedApps p
    (by rw [h]; intro hc; cases hc)
  simp [newProcStep, hl, h, hn, hne]

lemma newProcStep_of_log (f : AppFilter) (now : Int) (s : LoggerState)
    (p : Proc) (hl : lookupPid s.runningProcs p.pid = none)
    (h : evaluateProcessForLogging f s.loggedApps p = LogStatus.log) :
    newProcStep f now s p =
      ({ loggedApps := insertName s.loggedApps (strToLower (p.name.getD "")),
         runningProcs := insertRunning s.runningProcs p.pid
           (strToLower (p.name.getD "")) },
       [Stmt.insertEvent (p.name.getD "") p.pid (p.parentName.getD "")
         (p.exe.getD "") now]) := by
  obtain ⟨nm, x, hn, hne, hx⟩ := evaluate_ne_retry_shape f s.loggedApps p
    (by rw [h]; intro hc; cases hc)
  simp [newProcStep, hl, h, hn, hne]

/-- Claim C5: per snapshot process, (i) a pid already present in the running set
is skipped: its step leaves the state unchanged and emits nothing (it is never
handed to the classifier again while present); (ii) a fresh pid with a terminal
outcome (log or exclude) is inserted into the running set under its lowercased
name; (iii) a fresh pid with a retry outcome leaves the state untouched, so it
is re-evaluated on the next tick in which it appears. -/
theorem newProcStep_runningSet (f : AppFilter) (now : Int) (s : LoggerState)
    (p : Proc) :
    ((lookupPid s.runningProcs p.pid).isSome = true →
      newProcStep f now s p = (s, [])) ∧
    (lookupPid s.runningProcs p.pid = none →
      evaluateProcessForLogging f s.loggedApps p ≠ LogStatus.retry →
      lookupPid (newProcStep f now s p).1.runningProcs p.pid =
        some (strToLower (p.name.getD ""))) ∧
    (evaluateProcessForLogging f s.loggedApps p = LogStatus.retry →
      newProcStep f now s p = (s, [])) := by
  refine ⟨newProcStep_of_lookup_some f now s p, ?_, newProcStep_of_retry f now s p⟩
  intro hl hnr
  cases hstat : evaluateProcessForLogging f s.loggedApps p with
  | log =>
    rw [newProcStep_of_log f now s p hl hstat]
    exact lookupPid_insertRunning_self _ _ _
  | exclude =>
    rw [newProcStep_of_exclude f now s p hl hstat]
    exact lookupPid_insertRunning_self _ _ _
  | retry => exact absurd hstat hnr

/-- Witness for C5: pid 3 already running is skipped; fresh pid 4 logging "B" is
recorded as "b"; fresh pid 5 with an untrackable executable is left out. -/
theorem newProcStep_runningSet_witness :
    newProcStep passAllFilter 0 ⟨[], [(3, "b")]⟩ ⟨3, some "b", some "/b", none⟩ =
      (⟨[], [(3, "b")]⟩, []) ∧
    lookupPid (newProcStep passAllFilter 0 ⟨[], []⟩
      ⟨4, some "B", some "/b", none⟩).1.runningProcs 4 = some "b" ∧
    newProcStep ⟨fun _ _ => false, fun _ _ => false⟩ 0 ⟨[], []⟩
      ⟨5, some "c", some "/c", none⟩ = (⟨[], []⟩, []) := by
  refine ⟨?_, ?_, ?_⟩
  · exact (newProcStep_runningSet passAllFilter 0 ⟨[], [(3, "b")]⟩
      ⟨3, some "b", some "/b", none⟩).1 (by decide)
  · have h := (newProcStep_runningSet passAllFilter 0 ⟨[], []⟩
      ⟨4, some "B", some "/b", none⟩).2.1 rfl (by decide)
    exact h.trans (by decide)
  · exact (newProcStep_runningSet ⟨fun _ _ => false, fun _ _ => false⟩ 0 ⟨[], []⟩
      ⟨5, some "c", some "/c", none⟩).2.2 (by decide)

/-- Claim C10: classification is free of side effects on the monitor state: a
retry outcome changes nothing at all (no statement, no cache change, no running
entry); an exclude outcome enqueues nothing and leaves the dedup cache
unchanged, its only state change being the running-set insertion of the pid. -/
theorem classification_frame (f : AppFilter) (now : Int) (s : LoggerState)
    (p : Proc) :
    (evaluateProcessForLogging f s.loggedApps p = LogStatus.retry →
      newProcStep f now s p = (s, [])) ∧
    (lookupPid s.runningProcs p.pid = none →
      evaluateProcessForLogging f s.loggedApps p = LogStatus.exclude →
      newProcStep f now s p =
        ({ s with runningProcs := insertRunning s.runningProcs p.pid (strToLower (p.name.getD "")) }, [])) :=
  ⟨newProcStep_of_retry f now s p, newProcStep_of_exclude f now s p⟩

/-- Witness for C10: a retry process (no executable path) changes nothing; an
excluded process (system path) only gains a running-set entry. -/
theorem classification_frame_witness :
    newProcStep sysFilter 0 ⟨[], []⟩ ⟨9, some "e", none, none⟩ = (⟨[], []⟩, []) ∧
    newProcStep sysFilter 0 ⟨[], []⟩ ⟨8, some "d", some "/sys/daemon", none⟩ =
      (⟨[], [(8, "d")]⟩, []) := by
  constructor
  · exact (classification_frame sysFilter 0 ⟨[], []⟩ ⟨9, some "e", none, none⟩).1
      (by decide)
  · have h := (classification_frame sysFilter 0 ⟨[], []⟩
      ⟨8, some "d", some "/sys/daemon", none⟩).2 rfl (by decide)
    exact h.trans (by decide)

/-- Counterexample to claim C6 as stated.  An instance of lowercased name "a"
(pid 5, excluded because its executable is "/sys/daemon") is in the running
set while the dedup cache does not hold "a".  Pid 6 then reaches the classifier
first and logs name "a" (one insert emitted).  A subsequent process (pid 7)
with the same lowercased name whose executable-path lookup fails is classified
retry — not exclude, as the claim requires of every subsequent process. -/
theorem dedup_per_session_cx :
    (5, "a") ∈ ((logNewProcesses sysFilter 0 ⟨[], []⟩
        [⟨5, some "A", some "/sys/daemon", none⟩,
         ⟨6, some "a", some "/x", none⟩]).1).runningProcs ∧
    (logNewProcesses sysFilter 0 ⟨[], []⟩
        [⟨5, some "A", some "/sys/daemon", none⟩,
         ⟨6, some "a", some "/x", none⟩]).2 =
      [Stmt.insertEvent "a" 6 "" "/x" 0] ∧
    evaluateProcessForLogging sysFilter
      ((logNewProcesses sysFilter 0 ⟨[], []⟩
        [⟨5, some "A", some "/sys/daemon", none⟩,
         ⟨6, some "a", some "/x", none⟩]).1).loggedApps
      ⟨7, some "a", none, none⟩ = LogStatus.retry := by decide

/-- Claim C6 amended: while an instance of the name may be running, dedup is
governed by the dedup cache, and only processes with resolvable metadata are
forced to exclude.  Precisely: if a fresh process p is classified log, its step
emits exactly one insert statement and marks p's lowercased name in the cache;
afterwards every process q whose name resolves non-empty to the same lowercased
form and whose executable path resolves is classified exclude against the
resulting cache, and q's step emits nothing.  (A subsequent process whose
path lookup fails is classified retry instead, and also emits nothing.) -/
theorem dedup_per_session_amended (f : AppFilter) (now : Int) (s : LoggerState)
    (p q : Proc) (m x : String)
    (hp : lookupPid s.runningProcs p.pid = none)
    (hlog : evaluateProcessForLogging f s.loggedApps p = LogStatus.log)
    (hqn : q.name = some m) (hm : m ≠ "")
    (hsame : strToLower m = strToLower (p.name.getD ""))
    (hqx : q.exe = some x) :
    (newProcStep f now s p).2 =
      [Stmt.insertEvent (p.name.getD "") p.pid (p.parentName.getD "")
        (p.exe.getD "") now] ∧
    strToLower (p.name.getD "") ∈ (newProcStep f now s p).1.loggedApps ∧
    evaluateProcessForLogging f (newProcStep f now s p).1.loggedApps q =
      LogStatus.exclude ∧
    (newProcStep f now (newProcStep f now s p).1 q).2 = [] := by
  have hstep := newProcStep_of_log f now s p hp hlog
  have hcache : strToLower (p.name.getD "") ∈
      (newProcStep f now s p).1.loggedApps := by
    rw [hstep]
    show strToLower (p.name.getD "") ∈
      insertName s.loggedApps (strToLower (p.name.getD ""))
    rw [mem_insertName]
    left; rfl
  have hexq : evaluateProcessForLogging f (newProcStep f now s p).1.loggedApps q =
      LogStatus.exclude := by
    apply evaluate_eq_exclude_of_mem f _ q m x hqn hm hqx
    rw [hsame]
    exact hcache
  refine ⟨by rw [hstep], hcache, hexq, ?_⟩
  rcases hql : lookupPid (newProcStep f now s p).1.runningProcs q.pid with _ | v
  · rw [newProcStep_of_exclude f now _ q hql hexq]
  · rw [newProcStep_of_lookup_some f now _ q (by rw [hql]; rfl)]

/-- Witness for the amended C6: pid 5 named "a" already running (cache empty),
pid 6 logs "a", then pid 7 named "A" with path "/y" is excluded and silent. -/
theorem dedup_per_session_amended_witness :
    (newProcStep sysFilter 0 ⟨[], [(5, "a")]⟩ ⟨6, some "a", some "/x", none⟩).2 =
      [Stmt.insertEvent "a" 6 "" "/x" 0] ∧
    "a" ∈ (newProcStep sysFilter 0 ⟨[], [(5, "a")]⟩
      ⟨6, some "a", some "/x", none⟩).1.loggedApps ∧
    evaluateProcessForLogging sysFilter
      (newProcStep sysFilter 0 ⟨[], [(5, "a")]⟩
        ⟨6, some "a", some "/x", none⟩).1.loggedApps
      ⟨7, some "A", some "/y", none⟩ = LogStatus.exclude ∧
    (newProcStep sysFilter 0
      (newProcStep sysFilter 0 ⟨[], [(5, "a")]⟩ ⟨6, some "a", some "/x", none⟩).1
      ⟨7, some "A", some "/y", none⟩).2 = [] := by
  have h := dedup_per_session_amended sysFilter 0 ⟨[], [(5, "a")]⟩
    ⟨6, some "a", some "/x", none⟩ ⟨7, some "A", some "/y", none⟩ "A" "/y"
    (by decide) (by decide) rfl (by decide) (by decide) rfl
  exact ⟨h.1, h.2.1, h.2.2.1, h.2.2.2⟩

/-! ### Startup reconciliation -/

/-- Counterexample to claim C3 as stated.  The first row fails to scan; the
claim says the whole reconciliation is aborted and the remaining rows are not
processed, which would leave the statement list empty.  The code instead skips
only the failed row and still processes the second row (pid 7, not alive),
emitting its end update. -/
theorem initializeRunningProcs_scan_error_cx :
    (initializeRunningProcs 100 (fun _ => false) ⟨[], []⟩
        (some [none, some (7, "a")])).2 = [Stmt.endUpdate 100 7] ∧
    (initializeRunningProcs 100 (fun _ => false) ⟨[], []⟩
        (some [none, some (7, "a")])).2 ≠ [] := by decide

/-- Claim C3 amended: a failure of the query itself aborts reconciliation
silently — nothing is seeded, nothing is emitted, and the monitor proceeds to
the polling loop with the empty state it started from.  A row-scan error, by
contrast, skips only the failed row: reconciliation continues with the
remaining rows exactly as if the failed row were absent. -/
theorem initializeRunningProcs_error_handling (now : Int) (alive : Int → Bool)
    (s : LoggerState) (rest : List (Option (Int × String))) (f : AppFilter)
    (events : List LoopEvent) :
    initializeRunningProcs now alive s none = (s, []) ∧
    initializeRunningProcs now alive s (some (none :: rest)) =
      initializeRunningProcs now alive s (some rest) ∧
    StartProcessEventLogger f now alive none events =
      runLoop f { loggedApps := [], runningProcs := [] } events :=
  ⟨rfl, rfl, rfl⟩

lemma filterMap_id_cons_none (rest : List (Option (Int × String))) :
    (none :: rest).filterMap id = rest.filterMap id := rfl

lemma filterMap_id_cons_some (r : Int × String)
    (rest : List (Option (Int × String))) :
    (some r :: rest).filterMap id = r :: rest.filterMap id := rfl

lemma initLoop_stmts (now : Int) (alive : Int → Bool) :
    ∀ (rows : List (Option (Int × String))) (s : LoggerState),
    (initLoop now alive s rows).2 =
      ((rows.filterMap id).filter (fun r => !alive r.1)).map
        (fun r => Stmt.endUpdate now r.1) := by
  intro rows
  induction rows with
  | nil => intro s; simp [initLoop]
  | cons row rest ih =>
    intro s
    cases row with
    | none =>
      rw [filterMap_id_cons_none]
      exact ih s
    | some r =>
      rw [filterMap_id_cons_some]
      by_cases h : alive r.1
      · simp [initLoop, h, ih]
      · simp [initLoop, h, ih]

lemma initLoop_logged_mono (now : Int) (alive : Int → Bool) :
    ∀ (rows : List (Option (Int × String))) (s : LoggerState) (n : String),
    n ∈ s.loggedApps → n ∈ (initLoop now alive s rows).1.loggedApps := by
  intro rows
  induction rows with
  | nil => intro s n h; exact h
  | cons row rest ih =>
    intro s n h
    cases row with
    | none => exact ih s n h
    | some r =>
      by_cases ha : alive r.1
      · rw [show initLoop now alive s (some r :: rest) =
            initLoop now alive ⟨insertName s.loggedApps (strToLower r.2),
              insertRunning s.runningProcs r.1 (strToLower r.2)⟩ rest from by
          simp [initLoop, ha]]
        exact ih _ n ((mem_insertName _ _ _).2 (Or.inr h))
      · rw [show (initLoop now alive s (some r :: rest)).1 =
            (initLoop now alive s rest).1 from by simp [initLoop, ha]]
        exact ih s n h

lemma initLoop_lookup_preserve (now : Int) (alive : Int → Bool) (pid : Int) :
    ∀ (rows : List (Option (Int × String))) (s : LoggerState),
    (∀ r : Int × String, some r ∈ rows → r.1 ≠ pid) →
    lookupPid (initLoop now alive s rows).1.runningProcs pid =
      lookupPid s.runningProcs pid := by
  intro rows
  induction rows with
  | nil => intro s _; rfl
  | cons row rest ih =>
    intro s hall
    cases row with
    | none => exact ih s (fun r hr => hall r (List.mem_cons_of_mem _ hr))
    | some r =>
      have hr : r.1 ≠ pid := hall r (List.mem_cons_self _ _)
      by_cases ha : alive r.1
      · rw [show initLoop now alive s (some r :: rest) =
            initLoop now alive ⟨insertName s.loggedApps (strToLower r.2),
              insertRunning s.runningProcs r.1 (strToLower r.2)⟩ rest from by
          simp [initLoop, ha]]
        rw [ih _ (fun r' hr' => hall r' (List.mem_cons_of_mem _ hr'))]
        exact lookupPid_insertRunning_ne s.runningProcs r.1 pid (strToLower r.2)
          (Ne.symm hr)
      · rw [show (initLoop now alive s (some r :: rest)).1 =
            (initLoop now alive s rest).1 from by simp [initLoop, ha]]
        exact ih s (fun r' hr' => hall r' (List.mem_cons_of_mem _ hr'))

lemma initLoop_alive_lookup (now : Int) (alive : Int → Bool) :
    ∀ (rows : List (Option (Int × String))) (s : LoggerState) (pid : Int)
      (name : String),
    ((rows.filterMap id).map Prod.fst).Nodup →
    some (pid, name) ∈ rows → alive pid = true →
    lookupPid (initLoop now alive s rows).1.runningProcs pid =
      some (strToLower name) := by
  intro rows
  induction rows with
  | nil => intro s pid name _ h; cases h
  | cons row rest ih =>
    intro s pid name hnd hmem halive
    cases row with
    | none =>
      have hmem' : some (pid, name) ∈ rest := by
        rcases List.mem_cons.1 hmem with hc | h'
        · exact absurd hc (by simp)
        · exact h'
      rw [filterMap_id_cons_none] at hnd
      exact ih s pid name hnd hmem' halive
    | some r =>
      rw [filterMap_id_cons_some, List.map_cons] at hnd
      rcases List.mem_cons.1 hmem with hc | hmem'
      · have hre : (pid, name) = r := by
          injection hc
        subst hre
        rw [show initLoop now alive s (some (pid, name) :: rest) =
            initLoop now alive ⟨insertName s.loggedApps (strToLower name),
              insertRunning s.runningProcs pid (strToLower name)⟩ rest from by
          simp [initLoop, halive]]
        have hpidnot : ∀ r' : Int × String, some r' ∈ rest → r'.1 ≠ pid := by
          intro r' hr' hc'
          have h1 : pid ∈ (rest.filterMap id).map Prod.fst := by
            apply List.mem_map.2
            exact ⟨r', List.mem_filterMap.2 ⟨some r', hr', rfl⟩, hc'⟩
          exact (List.nodup_cons.1 hnd).1 h1
        rw [initLoop_lookup_preserve now alive pid rest _ hpidnot]
        exact lookupPid_insertRunning_self _ _ _
      · have hnd' := (List.nodup_cons.1 hnd).2
        by_cases ha : alive r.1
        · rw [show initLoop now alive s (some r :: rest) =
              initLoop now alive ⟨insertName s.loggedApps (strToLower r.2),
                insertRunning s.runningProcs r.1 (strToLower r.2)⟩ rest from by
            simp [initLoop, ha]]
          exact ih _ pid name hnd' hmem' halive
        · rw [show (initLoop now alive s (some r :: rest)).1 =
              (initLoop now alive s rest).1 from by simp [initLoop, ha]]
          exact ih s pid name hnd' hmem' halive

lemma initLoop_alive_logged (now : Int) (alive : Int → Bool) :
    ∀ (rows : List (Option (Int × String))) (s : LoggerState) (pid : Int)
      (name : String),
    some (pid, name) ∈ rows → alive pid = true →
    strToLower name ∈ (initLoop now alive s rows).1.loggedApps := by
  intro rows
  induction rows with
  | nil => intro s pid name h; cases h
  | cons row rest ih =>
    intro s pid name hmem halive
    cases row with
    | none =>
      have hmem' : some (pid, name) ∈ rest := by
        rcases List.mem_cons.1 hmem with hc | h'
        · exact absurd hc (by simp)
        · exact h'
      exact ih s pid name hmem' halive
    | some r =>
      rcases List.mem_cons.1 hmem with hc | hmem'
      · have hre : (pid, name) = r := by
          injection hc
        subst hre
        rw [show initLoop now alive s (some (pid, name) :: rest) =
            initLoop now alive ⟨insertName s.loggedApps (strToLower name),
              insertRunning s.runningProcs pid (strToLower name)⟩ rest from by
          simp [initLoop, halive]]
        apply initLoop_logged_mono
        exact (mem_insertName _ _ _).2 (Or.inl rfl)
      · by_cases ha : alive r.1
        · rw [show initLoop now alive s (some r :: rest) =
              initLoop now alive ⟨insertName s.loggedApps (strToLower r.2),
                insertRunning s.runningProcs r.1 (strToLower r.2)⟩ rest from by
            simp [initLoop, ha]]
          exact ih _ pid name hmem' halive
        · rw [show (initLoop now alive s (some r :: rest)).1 =
              (initLoop now alive s rest).1 from by simp [initLoop, ha]]
          exact ih s pid name hmem' halive

/-- Claim C7: startup reconciliation, run once before the first tick, handles
every scanned open row: if the pid is alive it seeds the running set with
pid → lowercased name and marks the name logged in the dedup cache; if the pid
is not alive it emits exactly one end update for that record; and in the full
monitor run the reconciliation statements precede every statement of the
polling loop. -/
theorem initializeRunningProcs_reconciliation (now : Int) (alive : Int → Bool)
    (rows : List (Option (Int × String))) (pid : Int) (name : String)
    (hrow : some (pid, name) ∈ rows)
    (hnodup : ((rows.filterMap id).map Prod.fst).Nodup) :
    (alive pid = true →
      lookupPid (initializeRunningProcs now alive ⟨[], []⟩
        (some rows)).1.runningProcs pid = some (strToLower name) ∧
      strToLower name ∈ (initializeRunningProcs now alive ⟨[], []⟩
        (some rows)).1.loggedApps) ∧
    (alive pid = false →
      (initializeRunningProcs now alive ⟨[], []⟩ (some rows)).2.count
        (Stmt.endUpdate now pid) = 1) ∧
    (∀ (f : AppFilter) (events : List LoopEvent),
      (StartProcessEventLogger f now alive (some rows) events).2 =
        (initializeRunningProcs now alive ⟨[], []⟩ (some rows)).2 ++
          (runLoop f (initializeRunningProcs now alive ⟨[], []⟩
            (some rows)).1 events).2) := by
  refine ⟨?_, ?_, ?_⟩
  · intro halive
    constructor
    · exact initLoop_alive_lookup now alive rows ⟨[], []⟩ pid name hnodup hrow halive
    · exact initLoop_alive_logged now alive rows ⟨[], []⟩ pid name hrow halive
  · intro hdead
    show (initLoop now alive ⟨[], []⟩ rows).2.count (Stmt.endUpdate now pid) = 1
    rw [initLoop_stmts]
    have hmap : ((rows.filterMap id).filter (fun r => !alive r.1)).map
        (fun r => Stmt.endUpdate now r.1) =
        (((rows.filterMap id).filter (fun r => !alive r.1)).map Prod.fst).map
          (fun q => Stmt.endUpdate now q) := by
      rw [List.map_map]
      rfl
    rw [hmap]
    apply count_endUpdate_map_one
    · exact List.Nodup.sublist ((List.filter_sublist _).map Prod.fst) hnodup
    · apply List.mem_map.2
      refine ⟨(pid, name), List.mem_filter.2 ⟨?_, ?_⟩, rfl⟩
      · exact List.mem_filterMap.2 ⟨some (pid, name), hrow, rfl⟩
      · simp [hdead]
  · intro f events
    rfl

/-- Witness for C7: rows for pid 1 (alive, name "A") and pid 2 (dead, name
"b"); pid 1 is seeded as "a" and marked logged, pid 2 gets one end update, and
the reconciliation output is a prefix of the full monitor output. -/
theorem initializeRunningProcs_reconciliation_witness :
    lookupPid (initializeRunningProcs 0 (fun q => decide (q = 1)) ⟨[], []⟩
      (some [some (1, "A"), some (2, "b")])).1.runningProcs 1 = some "a" ∧
    "a" ∈ (initializeRunningProcs 0 (fun q => decide (q = 1)) ⟨[], []⟩
      (some [some (1, "A"), some (2, "b")])).1.loggedApps ∧
    (initializeRunningProcs 0 (fun q => decide (q = 1)) ⟨[], []⟩
      (some [some (1, "A"), some (2, "b")])).2.count (Stmt.endUpdate 0 2) = 1 ∧
    (StartProcessEventLogger passAllFilter 0 (fun q => decide (q = 1))
      (some [some (1, "A"), some (2, "b")]) []).2 =
      (initializeRunningProcs 0 (fun q => decide (q = 1)) ⟨[], []⟩
        (some [some (1, "A"), some (2, "b")])).2 ++
      (runLoop passAllFilter (initializeRunningProcs 0 (fun q => decide (q = 1))
        ⟨[], []⟩ (some [some (1, "A"), some (2, "b")])).1 []).2 := by
  have h1 := initializeRunningProcs_reconciliation 0 (fun q => decide (q = 1))
    [some (1, "A"), some (2, "b")] 1 "A" (by decide) (by decide)
  have h2 := initializeRunningProcs_reconciliation 0 (fun q => decide (q = 1))
    [some (1, "A"), some (2, "b")] 2 "b" (by decide) (by decide)
  have hai := h1.1 (by decide)
  refine ⟨hai.1.trans (by decide), ?_, h2.2.1 (by decide), h1.2.2 passAllFilter []⟩
  have he : strToLower "A" = "a" := by decide
  have := hai.2
  rw [he] at this
  exact this

/-! ### The polling loop and the reset channel -/

/-- Claim C8: when snapshot retrieval fails on a tick, the whole tick is
skipped: the state is unchanged and no statement is emitted, and the loop
simply continues with the remaining wake-ups — running the loop on the failed
tick followed by any trace is the same as running it on the trace alone. -/
theorem snapshot_failure_skips_tick (f : AppFilter) (s : LoggerState)
    (now : Int) (events : List LoopEvent) :
    loopStep f s (LoopEvent.tick none now) = (s, []) ∧
    runLoop f s (LoopEvent.tick none now :: events) = runLoop f s events :=
  ⟨rfl, rfl⟩

/-- Claim C9: within one tick, termination detection runs before new-process
classification.  If the sole running instance (pid) of lowercased name n is
absent from the snapshot while a fresh process q of the same lowercased name
(with resolvable metadata, not excluded, trackable) appears in it, the tick
emits the end update for pid first and then the insert for q — the dedup cache
entry for n is freed before q is classified, so q is logged again. -/
theorem tick_frees_dedup_before_classify (f : AppFilter) (now : Int)
    (s : LoggerState) (pid : Int) (n : String) (q : Proc) (m x : String)
    (hrun : s.runningProcs = [(pid, n)])
    (hqpid : q.pid ≠ pid)
    (hname : q.name = some m) (hm : m ≠ "")
    (hlow : strToLower m = n)
    (hexe : q.exe = some x) (hexcl : f.ShouldExclude x q = false)
    (htrack : f.ShouldTrack x q = true) :
    (tick f now s [q]).2 =
      [Stmt.endUpdate now pid,
       Stmt.insertEvent m q.pid (q.parentName.getD "") x now] ∧
    (tick f now s [q]).1.runningProcs = [(q.pid, n)] := by
  have h1 : logEndedProcesses now s [q.pid] =
      (⟨s.loggedApps.filter (fun m' => decide (m' ≠ n)), []⟩,
       [Stmt.endUpdate now pid]) := by
    simp [logEndedProcesses, hrun, logEndedLoop, Ne.symm hqpid]
  have heval : evaluateProcessForLogging f
      (s.loggedApps.filter (fun m' => decide (m' ≠ n))) q = LogStatus.log := by
    apply evaluate_eq_log_intro f _ q m x hname hm hexe hexcl ?_ htrack
    rw [hlow]
    intro hc
    have h2 := (List.mem_filter.1 hc).2
    simp at h2
  have hstep := newProcStep_of_log f now
    ⟨s.loggedApps.filter (fun m' => decide (m' ≠ n)), []⟩ q rfl heval
  have h2 : logNewProcesses f now
      ⟨s.loggedApps.filter (fun m' => decide (m' ≠ n)), []⟩ [q] =
      (⟨insertName (s.loggedApps.filter (fun m' => decide (m' ≠ n))) n,
        [(q.pid, n)]⟩,
       [Stmt.insertEvent m q.pid (q.parentName.getD "") x now]) := by
    simp only [logNewProcesses, hstep, hname, hexe, Option.getD_some]
    rw [hlow]
    simp [insertRunning]
  have hall : tick f now s [q] =
      (⟨insertName (s.loggedApps.filter (fun m' => decide (m' ≠ n))) n,
        [(q.pid, n)]⟩,
       [Stmt.endUpdate now pid,
        Stmt.insertEvent m q.pid (q.parentName.getD "") x now]) := by
    show (let currentProcs := [q].map Proc.pid
          let r1 := logEndedProcesses now s currentProcs
          let r2 := logNewProcesses f now r1.1 [q]
          (r2.1, r1.2 ++ r2.2)) = _
    simp only [List.map_cons, List.map_nil, h1, h2]
    rfl
  exact ⟨by rw [hall], by rw [hall]⟩

/-- Witness for C9: "a" running as pid 1 exits while pid 2 ("A") launches in
the same tick window; the tick ends pid 1 and re-logs the name for pid 2. -/
theorem tick_frees_dedup_before_classify_witness :
    (tick passAllFilter 5 ⟨["a"], [(1, "a")]⟩
      [⟨2, some "A", some "/x", none⟩]).2 =
      [Stmt.endUpdate 5 1, Stmt.insertEvent "A" 2 "" "/x" 5] ∧
    (tick passAllFilter 5 ⟨["a"], [(1, "a")]⟩
      [⟨2, some "A", some "/x", none⟩]).1.runningProcs = [(2, "a")] := by
  have h := tick_frees_dedup_before_classify passAllFilter 5 ⟨["a"], [(1, "a")]⟩
    1 "a" ⟨2, some "A", some "/x", none⟩ "A" "/x" rfl (by decide) rfl
    (by decide) (by decide) rfl rfl rfl
  exact ⟨h.1, h.2⟩

lemma drainClears_receive (c c' : ResetCh) (h : resetChReceive c = some c') :
    drainClears c = drainClears c' + 1 := by
  unfold resetChReceive at h
  by_cases h0 : c.buffered = 0
  · simp [h0] at h
  · by_cases hb : c.blocked = 0
    · rw [if_neg h0, if_pos hb] at h
      injection h with h'
      subst h'
      unfold drainClears
      simp only []
      omega
    · rw [if_neg h0, if_neg hb] at h
      injection h with h'
      subst h'
      unfold drainClears
      simp only []
      omega

lemma resetChReceive_none_iff (c : ResetCh) :
    resetChReceive c = none ↔ c.buffered = 0 := by
  unfold resetChReceive
  by_cases h0 : c.buffered = 0
  · simp [h0]
  · by_cases hb : c.blocked = 0
    · simp [h0, hb]
    · simp [h0, hb]

/-- Counterexample to claim C2 as stated.  Raising the reset signal twice in
rapid succession before it is consumed is not a no-op and does not coalesce:
the channel state after two raises differs from the state after one, the
second raiser is left blocked inside the send, and draining the channel runs
the clearing branch twice, not once. -/
theorem reset_double_raise_cx :
    ResetLoggedApps (ResetLoggedApps ⟨0, 0⟩) ≠ ResetLoggedApps ⟨0, 0⟩ ∧
    drainClears (ResetLoggedApps (ResetLoggedApps ⟨0, 0⟩)) = 2 ∧
    drainClears (ResetLoggedApps ⟨0, 0⟩) = 1 ∧
    (ResetLoggedApps (ResetLoggedApps ⟨0, 0⟩)).blocked = 1 := by decide

/-- Claim C2 amended: `ResetLoggedApps` performs a plain (blocking) send on the
capacity-one channel.  Raising the signal while one is already pending blocks
the caller (it does not drop), leaves the buffered signal in place, and adds
exactly one further eventual clear; each signal consumed by the select loop
clears the dedup cache and the running set once, so two raises before
consumption produce two clears, not one. -/
theorem resetLoggedApps_blocking (c : ResetCh) (f : AppFilter) (s : LoggerState)
    (h : c.buffered = 1) :
    (ResetLoggedApps c).blocked = c.blocked + 1 ∧
    (ResetLoggedApps c).buffered = 1 ∧
    drainClears (ResetLoggedApps c) = drainClears c + 1 ∧
    loopStep f s LoopEvent.reset =
      ({ loggedApps := [], runningProcs := [] }, []) := by
  have hb : ¬ c.buffered < 1 := by omega
  unfold ResetLoggedApps drainClears
  rw [if_neg hb]
  refine ⟨rfl, h, ?_, rfl⟩
  dsimp only
  omega

/-- Witness for the amended C2 with one signal already pending. -/
theorem resetLoggedApps_blocking_witness :
    (ResetLoggedApps ⟨1, 0⟩).blocked = 0 + 1 ∧
    (ResetLoggedApps ⟨1, 0⟩).buffered = 1 ∧
    drainClears (ResetLoggedApps ⟨1, 0⟩) = drainClears ⟨1, 0⟩ + 1 ∧
    loopStep passAllFilter ⟨["a"], [(1, "a")]⟩ LoopEvent.reset =
      ({ loggedApps := [], runningProcs := [] }, []) :=
  resetLoggedApps_blocking ⟨1, 0⟩ passAllFilter ⟨["a"], [(1, "a")]⟩ rfl
